import Mathlib

/-!
Verification of the rendezvous/orchestration logic of `horovod/spark/__init__.py`.

The source file defines two functions that the claims are about:
* `run(fn, ...)` — the coordinator: waits for `num_proc` task registrations,
  notifies them, waits for task-to-task address updates, intersects the
  interface-name sets of every task's task-to-task address map, groups task
  indices by host hash, sorts the host hashes, barrel-shifts the sorted list
  until index 0's host is first, concatenates the per-host index lists into
  `ranks_to_indices`, invokes `mpirun`, and on any fault drains the driver,
  best-effort interrupts registered tasks, joins the Spark thread, shuts the
  driver down and re-raises; on success it reorders the per-slot results by
  `ranks_to_indices`.
* `task_fn(index, ...)` — the per-worker body: registers, waits for the
  registration ack, probes the ring successor `(index + 1) % num_proc`,
  reports that successor's task-to-task addresses, and then either drives the
  per-host command (if it is the first index on its host) or waits for the
  first index's command termination.

Pure data (host grouping, sorting, barrel shift, interface intersection) is
embedded directly; the services that live in other modules of the repository
(`driver_service`, `task_service`, `timeout`) are modelled from the spec where
noted.  Stateful control flow of `run` is embedded as a function from an
environment of external outcomes to a trace of observable events plus an
`Except` outcome.
-/

namespace Horovod

/-- Modelled from the spec (the `driver_service` module is not part of the
source under verification): `task_host_hash_indices` — the HostGroup of host
hash `h`, i.e. the slots in `[0, N)` whose registration carried host hash `h`,
in ascending slot order ("each HostGroup's own members listed in a stable
order (ascending Slot)").  Host hashes are modelled as naturals, whose order
stands for the natural order of host-hash strings. -/
def taskHostHashIndices (N : Nat) (hostOf : Nat → Nat) (h : Nat) : List Nat :=
  (List.range N).filter (fun i => hostOf i == h)

/-- The sorted list of distinct host hashes, embedding
`host_hashes = driver.task_host_hash_indices().keys(); host_hashes.sort()`. -/
def sortedHostHashes (N : Nat) (hostOf : Nat → Nat) : List Nat :=
  List.insertionSort (· ≤ ·) ((List.range N).map hostOf).dedup

/-- Fueled embedding of the barrel-shift loop
`while 0 not in driver.task_host_hash_indices()[host_hashes[0]]:
   host_hashes = host_hashes[1:] + host_hashes[:1]`.
Each unit of fuel allows one left rotation; `none` means the fuel was
exhausted (the Python loop would keep rotating, i.e. diverge, because rotation
is periodic). -/
def barrelShift (g : Nat → List Nat) (fuel : Nat) (hs : List Nat) : Option (List Nat) :=
  match hs with
  | [] => none
  | h :: t =>
    if 0 ∈ g h then some (h :: t)
    else
      match fuel with
      | 0 => none
      | fuel' + 1 => barrelShift g fuel' (t ++ [h])

/-- The host-hash list after the barrel shift, with enough fuel for a full
cycle of rotations. -/
def shiftedHashes (N : Nat) (hostOf : Nat → Nat) : Option (List Nat) :=
  barrelShift (taskHostHashIndices N hostOf) (sortedHostHashes N hostOf).length
    (sortedHostHashes N hostOf)

/-- `ranks_to_indices`: concatenation of each host group's member slots in
barrel-shifted host order (`for host_hash in host_hashes:
ranks_to_indices += driver.task_host_hash_indices()[host_hash]`). -/
def ranksOf (N : Nat) (hostOf : Nat → Nat) : Option (List Nat) :=
  (shiftedHashes N hostOf).map (fun hs => hs.flatMap (taskHostHashIndices N hostOf))

example : taskHostHashIndices 4 (fun i => i % 2) 0 = [0, 2] := by decide
example : sortedHostHashes 4 (fun i => 3 - i % 2) = [2, 3] := by decide
example : ranksOf 4 (fun i => i % 2) = some [0, 2, 1, 3] := by decide
example : ranksOf 4 (fun i => 1 - i % 2) = some [0, 2, 1, 3] := by decide
example : barrelShift (fun h => [h]) 3 [5, 0, 7] = some [0, 7, 5] := by decide

/-- An address map (a Python dict from interface name to a `(host, port)`
address, the address itself modelled opaquely as a natural). -/
abbrev AddrMap := List (String × Nat)

/-- The interface-name set of an address map: `set(m.keys())`. -/
def intfKeys (m : AddrMap) : Finset String :=
  (m.map Prod.fst).toFinset

/-- Embedding of the common-interface loop of `run`:
`common_intfs = set(driver.task_addresses_for_tasks(0).keys());
 for index in range(1, num_proc):
   common_intfs.intersection_update(driver.task_addresses_for_tasks(index).keys())`. -/
def commonIntfs (N : Nat) (m : Nat → AddrMap) : Finset String :=
  (List.range' 1 (N - 1)).foldl (fun s i => s ∩ intfKeys (m i)) (intfKeys (m 0))

/-- Faults `run` can raise, tagged with the data their Python messages carry.
`timeout` stands for the `timeout.TimeoutException` raised by the two driver
waits (modelled from the spec: the `timeout` module is not in the source under
verification); `noIntfs` is the "Unable to find a set of common task-to-task
communication interfaces" exception, carrying the per-slot dump
`[(index, driver.task_addresses_for_tasks(index)) for index in range(num_proc)]`;
`mpirunExit` is the "mpirun exited with code %d" exception; `sparkJobFailed`
is the exception from `driver.check_for_spark_job_failure()`. -/
inductive Fault where
  | timeout : Fault
  | noIntfs : List (Nat × AddrMap) → Fault
  | mpirunExit : Int → Fault
  | sparkJobFailed : Fault
deriving DecidableEq

/-- The message of a fault, `str(exc_value)` in the source.  Only the
`mpirunExit` text is verbatim from the source; the other modules' texts are
modelled (their content is not examined by any claim). -/
def Fault.message : Fault → String
  | .timeout => "Timed out waiting for task services to start."
  | .noIntfs l =>
      "Unable to find a set of common task-to-task communication interfaces: "
        ++ toString l
  | .mpirunExit c => "mpirun exited with code " ++ toString c ++ ", see the error above."
  | .sparkJobFailed => "Spark job has failed, see the error above."

/-- Observable events of one execution of `run`, in program order. -/
inductive Event where
  /-- `_make_spark_thread` started the Spark launch thread. -/
  | threadStart : Event
  /-- `task_client.notify_initial_registration_complete()` for slot `i`. -/
  | notifyRegComplete : Nat → Event
  /-- `driver.set_ranks_to_indices(ranks_to_indices)`. -/
  | setRanks : List Nat → Event
  /-- `safe_shell_exec.execute('mpirun ...')` with process count, the
  `host_hash:count` list, and the common interfaces. -/
  | execLauncher : Nat → List (Nat × Nat) → Finset String → Event
  /-- `driver.drain(str(exc_value))`. -/
  | drain : String → Event
  /-- `task_client.interrupt_waits(str(exc_value))` attempted on slot `i`;
  the flag records whether delivery succeeded (a failure is swallowed by
  `except: pass`). -/
  | interrupt : Nat → Bool → Event
  /-- `spark_thread.join()`. -/
  | joinThread : Event
  /-- `driver.shutdown()`. -/
  | shutdownDriver : Event
  /-- `driver.check_for_spark_job_failure()`. -/
  | checkJobFailure : Event
  /-- `result_queue.get_nowait()`. -/
  | getResults : Event
deriving DecidableEq

/-- The environment of one execution of `run`: every outcome of an external
interaction the control flow of `run` can observe.  `α` is the per-slot
result type. -/
structure Env (α : Type) where
  /-- `num_proc`. -/
  num_proc : Nat
  /-- The slots that registered with the driver before the deadline;
  `driver.registered_task_indices()` during fault handling. -/
  registered : List Nat
  /-- Whether `driver.wait_for_task_to_task_address_updates` times out. -/
  peerTimeout : Bool
  /-- `driver.task_addresses_for_tasks(i)`: slot `i`'s task-to-task (peer
  role) address map, as reported during the ring probe. -/
  taskAddrs : Nat → AddrMap
  /-- The host hash each slot registered with. -/
  hostOf : Nat → Nat
  /-- The exit code of the `mpirun` invocation. -/
  exitCode : Int
  /-- `spark_thread.is_alive()` during fault handling. -/
  sparkAlive : Bool
  /-- Whether `driver.check_for_spark_job_failure()` raises. -/
  sparkFailed : Bool
  /-- Whether `interrupt_waits` delivery to slot `i` fails (the error is
  discarded either way). -/
  interruptFails : Nat → Bool
  /-- Slot `i`'s entry of the result list delivered through `result_queue`. -/
  results : Nat → α

/-- Modelled from the spec (the `driver_service` module is not in the source
under verification): `driver.wait_for_initial_registration` returns normally
iff every slot in `[0, N)` registered before the deadline, and otherwise
raises a timeout ("If fewer than N workers register before the deadline,
`awaitInitialRegistration` raises TimeoutFault"). -/
def allRegistered {α : Type} (e : Env α) : Bool :=
  (List.range e.num_proc).all (fun i => e.registered.contains i)

/-- The events and outcome of the `try` body of `run`: from
`driver.wait_for_initial_registration` up to the `mpirun` exit-code check.
On success the value is `ranks_to_indices`.  `none` models divergence of the
barrel-shift loop (unreachable when registration is complete). -/
def tryBody {α : Type} (e : Env α) : Option (List Event × Except Fault (List Nat)) :=
  if ¬ allRegistered e then some ([], .error .timeout)
  else
    let notifies := (List.range e.num_proc).map Event.notifyRegComplete
    if e.peerTimeout then some (notifies, .error .timeout)
    else
      let common := commonIntfs e.num_proc e.taskAddrs
      if common = ∅ then
        some (notifies,
          .error (.noIntfs ((List.range e.num_proc).map (fun i => (i, e.taskAddrs i)))))
      else
        match shiftedHashes e.num_proc e.hostOf with
        | none => none
        | some hs =>
          let ranks := hs.flatMap (taskHostHashIndices e.num_proc e.hostOf)
          let tr := notifies ++
            [Event.setRanks ranks,
             Event.execLauncher e.num_proc
               (hs.map (fun h => (h, (taskHostHashIndices e.num_proc e.hostOf h).length)))
               common]
          if e.exitCode ≠ 0 then some (tr, .error (.mpirunExit e.exitCode))
          else some (tr, .ok ranks)

/-- The `except` block of `run`: drain the driver with the fault's message,
then loop over the registered slots, attempting a best-effort
`interrupt_waits` on each while the Spark thread is alive, swallowing each
delivery failure. -/
def cleanupEvents {α : Type} (e : Env α) (f : Fault) : List Event :=
  Event.drain f.message ::
    (if e.sparkAlive then
       e.registered.map (fun i => Event.interrupt i (!e.interruptFails i))
     else [])

/-- The full control flow of `run` after the Spark thread is started: the
`try` body, the `except` block on fault (re-raising the original fault), the
`finally` block (join, shutdown), and the post-`finally` success path
(`check_for_spark_job_failure`, `result_queue.get_nowait()`, reorder by
`ranks_to_indices`). -/
def runModel {α : Type} (e : Env α) : Option (List Event × Except Fault (List α)) :=
  match tryBody e with
  | none => none
  | some (tr, .error f) =>
      some (Event.threadStart :: tr ++ cleanupEvents e f
              ++ [Event.joinThread, Event.shutdownDriver], .error f)
  | some (tr, .ok ranks) =>
      if e.sparkFailed then
        some (Event.threadStart :: tr
                ++ [Event.joinThread, Event.shutdownDriver, Event.checkJobFailure],
              .error .sparkJobFailed)
      else
        some (Event.threadStart :: tr
                ++ [Event.joinThread, Event.shutdownDriver, Event.checkJobFailure,
                    Event.getResults],
              .ok (ranks.map e.results))

/-- Observable events of one execution of `task_fn` for a slot. -/
inductive TaskEvent where
  /-- `driver_client.register(index, task.addresses(), host_hash.host_hash())`. -/
  | register : Nat → Nat → TaskEvent
  /-- `task.wait_for_initial_registration(tmout)`. -/
  | waitInitialRegistration : TaskEvent
  /-- `driver_client.all_task_addresses(j)`. -/
  | queryAllTaskAddresses : Nat → TaskEvent
  /-- `driver_client.register_task_to_task_addresses(j, ...)`: the peer-role
  address record written for slot `j`. -/
  | reportPeerAddresses : Nat → TaskEvent
  /-- `driver_client.task_host_hash_indices(host_hash.host_hash())`. -/
  | queryHostIndices : Nat → TaskEvent
  /-- `task.wait_for_command_start(tmout)` on this slot's own agent. -/
  | waitCommandStart : TaskEvent
  /-- `wait_for_command_termination()` on slot `j`'s agent. -/
  | waitCommandTermination : Nat → TaskEvent
  /-- `task.shutdown()` in the `finally` block. -/
  | shutdown : Nat → TaskEvent
deriving DecidableEq

/-- Embedding of the happy-path control flow of `task_fn(index, ...)` for
slot `i` of `N`: register, wait for the registration ack, resolve the ring
successor `(i + 1) % N` and report its task-to-task addresses, query the
slots on this host, then either drive the per-host command (first index on
the host) or wait on the first index's command termination, and shut down.
The empty-host-group branch is unreachable for `i < N` (slot `i` is always a
member of its own host group). -/
def taskFn (N i : Nat) (hostOf : Nat → Nat) : List TaskEvent :=
  let nxt := (i + 1) % N
  let myIndices := taskHostHashIndices N hostOf (hostOf i)
  [TaskEvent.register i (hostOf i), TaskEvent.waitInitialRegistration,
   TaskEvent.queryAllTaskAddresses nxt, TaskEvent.reportPeerAddresses nxt,
   TaskEvent.queryHostIndices (hostOf i)] ++
  (match myIndices.head? with
   | some first =>
     if first = i then [TaskEvent.waitCommandStart, TaskEvent.waitCommandTermination i]
     else [TaskEvent.queryAllTaskAddresses first, TaskEvent.waitCommandTermination first]
   | none => []) ++
  [TaskEvent.shutdown i]

/-- A concrete four-slot, two-host environment used while developing. -/
def envDemo : Env Nat where
  num_proc := 4
  registered := [0, 1, 2, 3]
  peerTimeout := false
  taskAddrs := fun _ => [("eth0", 1), ("lo", 2)]
  hostOf := fun i => i % 2
  exitCode := 0
  sparkAlive := true
  sparkFailed := false
  interruptFails := fun _ => false
  results := fun i => 10 * i

example :
    runModel envDemo =
      some (Event.threadStart ::
              [Event.notifyRegComplete 0, Event.notifyRegComplete 1,
               Event.notifyRegComplete 2, Event.notifyRegComplete 3] ++
              [Event.setRanks [0, 2, 1, 3],
               Event.execLauncher 4 [(0, 2), (1, 2)] (intfKeys [("eth0", 1), ("lo", 2)])] ++
              [Event.joinThread, Event.shutdownDriver, Event.checkJobFailure,
               Event.getResults],
            Except.ok [0, 20, 10, 30]) := by
  rfl

example :
    taskFn 4 1 (fun i => i % 2) =
      [TaskEvent.register 1 1, TaskEvent.waitInitialRegistration,
       TaskEvent.queryAllTaskAddresses 2, TaskEvent.reportPeerAddresses 2,
       TaskEvent.queryHostIndices 1, TaskEvent.waitCommandStart,
       TaskEvent.waitCommandTermination 1, TaskEvent.shutdown 1] := by
  decide

example :
    taskFn 4 3 (fun i => i % 2) =
      [TaskEvent.register 3 1, TaskEvent.waitInitialRegistration,
       TaskEvent.queryAllTaskAddresses 0, TaskEvent.reportPeerAddresses 0,
       TaskEvent.queryHostIndices 1, TaskEvent.queryAllTaskAddresses 1,
       TaskEvent.waitCommandTermination 1, TaskEvent.shutdown 3] := by
  decide

/-! ### Lemmas about the barrel shift -/

/-- A successful barrel shift returns a list whose head's host group contains
slot 0 (the loop guard is false on exit). -/
theorem barrelShift_head (g : Nat → List Nat) :
    ∀ (fuel : Nat) (hs r : List Nat), barrelShift g fuel hs = some r →
      ∃ h t, r = h :: t ∧ 0 ∈ g h := by
  intro fuel
  induction fuel with
  | zero =>
    intro hs r hr
    cases hs with
    | nil => simp [barrelShift] at hr
    | cons h t =>
      by_cases h0 : 0 ∈ g h
      · refine ⟨h, t, ?_, h0⟩
        simp [barrelShift, h0] at hr
        exact hr.symm
      · simp [barrelShift, h0] at hr
  | succ fuel ih =>
    intro hs r hr
    cases hs with
    | nil => simp [barrelShift] at hr
    | cons h t =>
      by_cases h0 : 0 ∈ g h
      · refine ⟨h, t, ?_, h0⟩
        simp [barrelShift, h0] at hr
        exact hr.symm
      · simp [barrelShift, h0] at hr
        exact ih (t ++ [h]) r hr

/-- A successful barrel shift returns a rotation of its input: the relative
cyclic order of the host groups is preserved. -/
theorem barrelShift_isRotated (g : Nat → List Nat) :
    ∀ (fuel : Nat) (hs r : List Nat), barrelShift g fuel hs = some r →
      hs.IsRotated r := by
  intro fuel
  induction fuel with
  | zero =>
    intro hs r hr
    cases hs with
    | nil => simp [barrelShift] at hr
    | cons h t =>
      by_cases h0 : 0 ∈ g h
      · simp [barrelShift, h0] at hr
        rw [← hr]
      · simp [barrelShift, h0] at hr
  | succ fuel ih =>
    intro hs r hr
    cases hs with
    | nil => simp [barrelShift] at hr
    | cons h t =>
      by_cases h0 : 0 ∈ g h
      · simp [barrelShift, h0] at hr
        rw [← hr]
      · simp [barrelShift, h0] at hr
        have hrot : (h :: t).IsRotated (t ++ [h]) :=
          ⟨1, by rw [List.rotate_cons_succ, List.rotate_zero]⟩
        exact hrot.trans (ih (t ++ [h]) r hr)

/-- If the head's host group already contains slot 0, the barrel shift is the
identity, whatever the fuel. -/
theorem barrelShift_fixed (g : Nat → List Nat) (fuel : Nat) (h : Nat) (t : List Nat)
    (h0 : 0 ∈ g h) : barrelShift g fuel (h :: t) = some (h :: t) := by
  cases fuel <;> simp [barrelShift, h0]

/-- If some list position `j` holds a host whose group contains slot 0, the
barrel shift succeeds with any fuel of at least `j` rotations. -/
theorem barrelShift_succeeds (g : Nat → List Nat) :
    ∀ (j : Nat) (hs : List Nat) (fuel : Nat), j ≤ fuel →
      ∀ (hj : j < hs.length), 0 ∈ g (hs.get ⟨j, hj⟩) →
      ∃ r, barrelShift g fuel hs = some r := by
  intro j
  induction j with
  | zero =>
    intro hs fuel _ hj h0
    cases hs with
    | nil => simp at hj
    | cons h t =>
      simp only [List.get] at h0
      exact ⟨h :: t, barrelShift_fixed g fuel h t h0⟩
  | succ j ih =>
    intro hs fuel hfuel hj h0
    cases hs with
    | nil => simp at hj
    | cons h t =>
      by_cases hh : 0 ∈ g h
      · exact ⟨h :: t, barrelShift_fixed g fuel h t hh⟩
      · cases fuel with
        | zero => omega
        | succ f =>
          have hj' : j < t.length := by
            simp at hj
            omega
          have hjtl : j < (t ++ [h]).length := by
            simp
            omega
          have h0' : 0 ∈ g ((t ++ [h]).get ⟨j, hjtl⟩) := by
            have e1 : (h :: t).get ⟨j + 1, hj⟩ = t.get ⟨j, hj'⟩ := rfl
            have e2 : (t ++ [h]).get ⟨j, hjtl⟩ = t.get ⟨j, hj'⟩ := by
              simp only [List.get_eq_getElem]
              exact List.getElem_append_left hj'
            rw [e2, ← e1]
            exact h0
          obtain ⟨r, hr⟩ := ih (t ++ [h]) f (by omega) hjtl h0'
          refine ⟨r, ?_⟩
          simpa [barrelShift, hh] using hr

/-- If no host group in the list contains slot 0, the barrel-shift loop never
exits: every fuel is exhausted. -/
theorem barrelShift_none (g : Nat → List Nat) :
    ∀ (fuel : Nat) (hs : List Nat), (∀ h ∈ hs, 0 ∉ g h) →
      barrelShift g fuel hs = none := by
  intro fuel
  induction fuel with
  | zero =>
    intro hs hno
    cases hs with
    | nil => rfl
    | cons h t => simp [barrelShift, hno h (by simp)]
  | succ f ih =>
    intro hs hno
    cases hs with
    | nil => rfl
    | cons h t =>
      have hh := hno h (by simp)
      simp only [barrelShift, hh, if_false]
      exact ih (t ++ [h]) (by
        intro x hx
        apply hno
        simp at hx ⊢
        tauto)

/-! ### Host grouping is a partition: concatenating the groups of a duplicate-free
covering host list permutes the underlying slot list -/

/-- Concatenating, over a duplicate-free list of keys covering every element's
key, the sublists of `l` with each key, permutes `l`. -/
theorem flatMap_filter_perm (f : Nat → Nat) :
    ∀ (hs : List Nat) (l : List Nat), hs.Nodup → (∀ x ∈ l, f x ∈ hs) →
      (hs.flatMap (fun h => l.filter (fun x => f x == h))).Perm l := by
  intro hs
  induction hs with
  | nil =>
    intro l _ hcov
    have hl : l = [] := by
      cases l with
      | nil => rfl
      | cons a t => exact absurd (hcov a (by simp)) (by simp)
    simp [hl]
  | cons h t ih =>
    intro l hnd hcov
    have hht : h ∉ t := (List.nodup_cons.mp hnd).1
    have hnd' : t.Nodup := (List.nodup_cons.mp hnd).2
    have hstep : ∀ h' ∈ t,
        l.filter (fun x => f x == h') =
          (l.filter (fun x => !(f x == h))).filter (fun x => f x == h') := by
      intro h' hh'
      rw [List.filter_filter]
      apply List.filter_congr
      intro x _
      have hne : ¬ h' = h := fun hEq => hht (hEq ▸ hh')
      by_cases hfx : f x = h'
      · simp [hfx, hne]
      · simp [hfx]
    have hbind : t.flatMap (fun h' => l.filter (fun x => f x == h'))
        = t.flatMap (fun h' => (l.filter (fun x => !(f x == h))).filter
            (fun x => f x == h')) := by
      apply List.flatMap_congr
      intro h' hh'
      exact hstep h' hh'
    have hcov' : ∀ x ∈ l.filter (fun x => !(f x == h)), f x ∈ t := by
      intro x hx
      obtain ⟨hxl, hxne⟩ := List.mem_filter.mp hx
      have := hcov x hxl
      simp at hxne this
      tauto
    rw [List.flatMap_cons, hbind]
    exact (List.Perm.append_left _ (ih _ hnd' hcov')).trans
      (List.filter_append_perm _ l)

/-! ### The sorted distinct host-hash list -/

/-- The sorted host-hash list is a permutation of the distinct host hashes. -/
theorem sortedHostHashes_perm (N : Nat) (f : Nat → Nat) :
    (sortedHostHashes N f).Perm ((List.range N).map f).dedup :=
  List.perm_insertionSort _ _

/-- The sorted host-hash list has no duplicates. -/
theorem sortedHostHashes_nodup (N : Nat) (f : Nat → Nat) :
    (sortedHostHashes N f).Nodup :=
  ((sortedHostHashes_perm N f).nodup_iff).mpr (List.nodup_dedup _)

/-- Membership in the sorted host-hash list: exactly the hashes of slots in
`[0, N)`. -/
theorem mem_sortedHostHashes (N : Nat) (f : Nat → Nat) (x : Nat) :
    x ∈ sortedHostHashes N f ↔ ∃ i, i < N ∧ f i = x := by
  rw [(sortedHostHashes_perm N f).mem_iff, List.mem_dedup, List.mem_map]
  constructor
  · rintro ⟨i, hi, rfl⟩
    exact ⟨i, List.mem_range.mp hi, rfl⟩
  · rintro ⟨i, hi, rfl⟩
    exact ⟨i, List.mem_range.mpr hi, rfl⟩

/-- A slot below `N` is a member of its own host group. -/
theorem mem_own_hostGroup (N : Nat) (f : Nat → Nat) (i : Nat) (hi : i < N) :
    i ∈ taskHostHashIndices N f (f i) := by
  simp [taskHostHashIndices, List.mem_filter, List.mem_range, hi]

/-- For `N ≥ 1` the barrel shift of the sorted host-hash list succeeds. -/
theorem shiftedHashes_some (N : Nat) (f : Nat → Nat) (hN : 1 ≤ N) :
    ∃ hs, shiftedHashes N f = some hs := by
  have hmem : f 0 ∈ sortedHostHashes N f :=
    (mem_sortedHostHashes N f (f 0)).mpr ⟨0, hN, rfl⟩
  obtain ⟨j, hget⟩ := List.mem_iff_get.mp hmem
  have h0 : 0 ∈ taskHostHashIndices N f ((sortedHostHashes N f).get j) := by
    rw [hget]
    exact mem_own_hostGroup N f 0 hN
  obtain ⟨r, hr⟩ := barrelShift_succeeds (taskHostHashIndices N f) j.1
    (sortedHostHashes N f) (sortedHostHashes N f).length (Nat.le_of_lt j.2) j.2 h0
  exact ⟨r, hr⟩

/-- The barrel-shifted host-hash list is a permutation of the sorted distinct
host hashes, and its head's group contains slot 0. -/
theorem shiftedHashes_spec (N : Nat) (f : Nat → Nat) (hs : List Nat)
    (h : shiftedHashes N f = some hs) :
    (sortedHostHashes N f).Perm hs ∧
      ∃ a t, hs = a :: t ∧ 0 ∈ taskHostHashIndices N f a := by
  constructor
  · exact (barrelShift_isRotated _ _ _ _ h).perm
  · exact barrelShift_head _ _ _ _ h

/-- Core property of rank assignment: for `N ≥ 1`, `ranks_to_indices` is
computed (the barrel shift terminates), is a permutation of `[0, N)`, and
starts with slot 0. -/
theorem ranksOf_spec (N : Nat) (f : Nat → Nat) (hN : 1 ≤ N) :
    ∃ ranks, ranksOf N f = some ranks ∧ ranks.Perm (List.range N) ∧
      ranks.head? = some 0 := by
  obtain ⟨hs, hhs⟩ := shiftedHashes_some N f hN
  obtain ⟨hperm, a, t, hcons, h0⟩ := shiftedHashes_spec N f hs hhs
  refine ⟨hs.flatMap (taskHostHashIndices N f), by simp [ranksOf, hhs], ?_, ?_⟩
  · have hnd : hs.Nodup := (hperm.nodup_iff).mp (sortedHostHashes_nodup N f)
    have hcov : ∀ x ∈ List.range N, f x ∈ hs := by
      intro x hx
      exact hperm.subset
        ((mem_sortedHostHashes N f (f x)).mpr ⟨x, List.mem_range.mp hx, rfl⟩)
    have := flatMap_filter_perm f hs (List.range N) hnd hcov
    simpa [taskHostHashIndices] using this
  · subst hcons
    have hp0 : (f 0 == a) = true := (List.mem_filter.mp h0).2
    obtain ⟨n, rfl⟩ : ∃ n, N = n + 1 := ⟨N - 1, by omega⟩
    have hgroup : taskHostHashIndices (n + 1) f a =
        0 :: (List.filter (fun i => f i == a) (List.map Nat.succ (List.range n))) := by
      rw [taskHostHashIndices, List.range_succ_eq_map]
      simp [List.filter_cons, hp0]
    simp [hgroup]

/-! ### The common-interface intersection -/

/-- Membership in a left fold of binary intersections. -/
theorem mem_foldl_inter (f : Nat → Finset String) :
    ∀ (l : List Nat) (s0 : Finset String) (x : String),
      x ∈ l.foldl (fun s i => s ∩ f i) s0 ↔ x ∈ s0 ∧ ∀ i ∈ l, x ∈ f i := by
  intro l
  induction l with
  | nil => simp
  | cons a t ih =>
    intro s0 x
    rw [List.foldl_cons, ih]
    simp [Finset.mem_inter]
    tauto

/-- `common_intfs` is exactly the set of interface names present in every
slot's task-to-task address map. -/
theorem mem_commonIntfs (N : Nat) (m : Nat → AddrMap) (hN : 1 ≤ N) (x : String) :
    x ∈ commonIntfs N m ↔ ∀ i, i < N → x ∈ intfKeys (m i) := by
  rw [commonIntfs, mem_foldl_inter]
  constructor
  · rintro ⟨h0, hrest⟩ i hi
    rcases Nat.eq_zero_or_pos i with rfl | hpos
    · exact h0
    · exact hrest i (List.mem_range'_1.mpr ⟨hpos, by omega⟩)
  · intro h
    refine ⟨h 0 hN, fun i hi => ?_⟩
    obtain ⟨h1, h2⟩ := List.mem_range'_1.mp hi
    exact h i (by omega)

/-- If any single slot reports an empty interface set, the intersection is
empty. -/
theorem commonIntfs_empty_of_empty (N : Nat) (m : Nat → AddrMap) (hN : 1 ≤ N)
    (j : Nat) (hj : j < N) (hempty : intfKeys (m j) = ∅) :
    commonIntfs N m = ∅ := by
  rw [Finset.eq_empty_iff_forall_not_mem]
  intro x hx
  have := (mem_commonIntfs N m hN x).mp hx j hj
  rw [hempty] at this
  exact absurd this (Finset.not_mem_empty x)

/-! ### Branch lemmas for the orchestration model -/

/-- The per-slot notification events emitted after registration completes. -/
def notifyEvents {α : Type} (e : Env α) : List Event :=
  (List.range e.num_proc).map Event.notifyRegComplete

/-- The trace of a `try` body that reaches the `mpirun` invocation. -/
def mainTrace {α : Type} (e : Env α) (hs : List Nat) : List Event :=
  notifyEvents e ++
    [Event.setRanks (hs.flatMap (taskHostHashIndices e.num_proc e.hostOf)),
     Event.execLauncher e.num_proc
       (hs.map (fun h => (h, (taskHostHashIndices e.num_proc e.hostOf h).length)))
       (commonIntfs e.num_proc e.taskAddrs)]

/-- `try` body, registration-timeout branch. -/
theorem tryBody_of_unregistered {α : Type} (e : Env α)
    (h : allRegistered e = false) :
    tryBody e = some ([], .error .timeout) := by
  simp [tryBody, h]

/-- `try` body, peer-address-timeout branch. -/
theorem tryBody_of_peerTimeout {α : Type} (e : Env α)
    (hreg : allRegistered e = true) (hpt : e.peerTimeout = true) :
    tryBody e = some (notifyEvents e, .error .timeout) := by
  simp [tryBody, hreg, hpt, notifyEvents]

/-- `try` body, empty-intersection branch. -/
theorem tryBody_of_noIntfs {α : Type} (e : Env α)
    (hreg : allRegistered e = true) (hpt : e.peerTimeout = false)
    (hci : commonIntfs e.num_proc e.taskAddrs = ∅) :
    tryBody e = some (notifyEvents e,
      .error (.noIntfs ((List.range e.num_proc).map (fun i => (i, e.taskAddrs i))))) := by
  simp [tryBody, hreg, hpt, hci, notifyEvents]

/-- `try` body, launch branch: with complete registrations, no timeouts and a
non-empty interface intersection, the body reaches the `mpirun` call. -/
theorem tryBody_of_launch {α : Type} (e : Env α) (hs : List Nat)
    (hreg : allRegistered e = true) (hpt : e.peerTimeout = false)
    (hci : ¬ commonIntfs e.num_proc e.taskAddrs = ∅)
    (hhs : shiftedHashes e.num_proc e.hostOf = some hs) :
    tryBody e = if e.exitCode ≠ 0
      then some (mainTrace e hs, .error (.mpirunExit e.exitCode))
      else some (mainTrace e hs,
        .ok (hs.flatMap (taskHostHashIndices e.num_proc e.hostOf))) := by
  simp [tryBody, hreg, hpt, hci, hhs, mainTrace, notifyEvents]

/-- `run`, fault propagation: a `try`-body fault triggers the cleanup
sequence and is re-raised unchanged. -/
theorem runModel_of_error {α : Type} (e : Env α) (tr : List Event) (f : Fault)
    (h : tryBody e = some (tr, .error f)) :
    runModel e = some (Event.threadStart :: tr ++ cleanupEvents e f
      ++ [Event.joinThread, Event.shutdownDriver], .error f) := by
  simp [runModel, h]

/-- `run`, success path of the `try` body. -/
theorem runModel_of_ok {α : Type} (e : Env α) (tr : List Event) (ranks : List Nat)
    (h : tryBody e = some (tr, .ok ranks)) :
    runModel e = if e.sparkFailed then
        some (Event.threadStart :: tr
          ++ [Event.joinThread, Event.shutdownDriver, Event.checkJobFailure],
          .error .sparkJobFailed)
      else
        some (Event.threadStart :: tr
          ++ [Event.joinThread, Event.shutdownDriver, Event.checkJobFailure,
              Event.getResults],
          .ok (ranks.map e.results)) := by
  simp [runModel, h]

/-! ### Claim theorems: rank assignment -/

/-- C1: for every `N ≥ 1` and every complete set of `N` registrations
(modelled by the total host-hash assignment `hostOf`), the rank mapping
`ranks_to_indices` computed by `run` — sort the host groups, barrel-shift,
concatenate each host group's member slots — is a permutation of `[0, N)`,
and slot 0 occupies position 0 (rank 0). -/
theorem ranks_to_indices_permutation (N : Nat) (hostOf : Nat → Nat) (hN : 1 ≤ N) :
    ∃ ranks, ranksOf N hostOf = some ranks ∧ ranks.Perm (List.range N) ∧
      ranks.head? = some 0 :=
  ranksOf_spec N hostOf hN

/-- Witness for C1 at `N = 4` with hosts `{1: [0, 2], 0: [1, 3]}`, where the
sorted host list needs an actual rotation. -/
theorem ranks_to_indices_permutation_witness :
    1 ≤ 4 ∧ ∃ ranks, ranksOf 4 (fun i => 1 - i % 2) = some ranks ∧
      ranks.Perm (List.range 4) ∧ ranks.head? = some 0 :=
  ⟨by decide, ranks_to_indices_permutation 4 (fun i => 1 - i % 2) (by decide)⟩

/-- C4: a successful barrel shift is a rotation of the sorted host-group
list — the relative cyclic order of the remaining groups never changes — and
applying the rotation rule again to an already-rotated list is the identity. -/
theorem barrel_shift_rotation_idempotent (g : Nat → List Nat)
    (fuel fuel2 : Nat) (hs r : List Nat) :
    (barrelShift g fuel hs = some r → hs.IsRotated r) ∧
    (barrelShift g fuel hs = some r → barrelShift g fuel2 r = some r) := by
  constructor
  · exact barrelShift_isRotated g fuel hs r
  · intro h
    obtain ⟨a, t, rfl, h0⟩ := barrelShift_head g fuel hs r h
    exact barrelShift_fixed g fuel2 a t h0

/-- Witness for C4 on the list `[3, 1, 2]` with slot 0 living on host 1. -/
theorem barrel_shift_rotation_idempotent_witness :
    List.IsRotated [3, 1, 2] [1, 2, 3] ∧
      barrelShift (fun h => [h - 1]) 5 [1, 2, 3] = some [1, 2, 3] :=
  ⟨(barrel_shift_rotation_idempotent (fun h => [h - 1]) 3 5 [3, 1, 2] [1, 2, 3]).1
      (by decide),
   (barrel_shift_rotation_idempotent (fun h => [h - 1]) 3 5 [3, 1, 2] [1, 2, 3]).2
      (by decide)⟩

/-- C10 (implicit): the barrel-shift loop terminates within
`(number of host groups) - 1` rotations provided some group contains slot 0;
if no group contains slot 0 the loop never exits, whatever the fuel; and a
complete set of `N ≥ 1` registrations guarantees the precondition: slot 0 is
in the group of its own host hash, which is in the sorted host-hash list. -/
theorem barrel_shift_termination (g : Nat → List Nat) (hs : List Nat)
    (N : Nat) (hostOf : Nat → Nat) :
    ((∃ h ∈ hs, 0 ∈ g h) → ∃ r, barrelShift g (hs.length - 1) hs = some r) ∧
    ((∀ h ∈ hs, 0 ∉ g h) → ∀ fuel, barrelShift g fuel hs = none) ∧
    (1 ≤ N → 0 ∈ taskHostHashIndices N hostOf (hostOf 0) ∧
      hostOf 0 ∈ sortedHostHashes N hostOf) := by
  refine ⟨?_, ?_, ?_⟩
  · rintro ⟨h, hmem, h0⟩
    obtain ⟨j, hget⟩ := List.mem_iff_get.mp hmem
    exact barrelShift_succeeds g j.1 hs (hs.length - 1)
      (Nat.le_sub_one_of_lt j.2) j.2 (by rw [hget]; exact h0)
  · intro hno fuel
    exact barrelShift_none g fuel hs hno
  · intro hN
    exact ⟨mem_own_hostGroup N hostOf 0 hN,
      (mem_sortedHostHashes N hostOf (hostOf 0)).mpr ⟨0, hN, rfl⟩⟩

/-- Witness for C10: termination in one rotation on `[3, 1]`, divergence for
every fuel when no group holds slot 0, and the completeness precondition at
`N = 2`. -/
theorem barrel_shift_termination_witness :
    (∃ r, barrelShift (fun h => [h - 1]) ([3, 1].length - 1) [3, 1] = some r) ∧
      barrelShift (fun h => [h + 1]) 7 [3, 1] = none ∧
      0 ∈ taskHostHashIndices 2 (fun i => 5 * i) ((fun i => 5 * i) 0) :=
  ⟨(barrel_shift_termination (fun h => [h - 1]) [3, 1] 2 (fun i => 5 * i)).1
      ⟨1, by decide, by decide⟩,
   (barrel_shift_termination (fun h => [h + 1]) [3, 1] 2 (fun i => 5 * i)).2.1
      (by decide) 7,
   ((barrel_shift_termination (fun h => [h + 1]) [3, 1] 2 (fun i => 5 * i)).2.2
      (by decide)).1⟩

/-! ### Claim theorems: interface negotiation -/

/-- C2: the common interface set computed by `run` is the exact intersection,
over all `N` slots, of the interface-name sets of each slot's peer-role
address map; it is empty whenever any one slot reports an empty set; `run`
raises the negotiation fault carrying the per-slot enumeration
`[(index, task_addresses_for_tasks(index)) for index in range(N)]` exactly
when the intersection is empty, and raises no negotiation fault otherwise. -/
theorem common_interfaces_negotiation {α : Type} (e : Env α)
    (hN : 1 ≤ e.num_proc) (hreg : allRegistered e = true)
    (hpt : e.peerTimeout = false) :
    (∀ x, x ∈ commonIntfs e.num_proc e.taskAddrs ↔
        ∀ i, i < e.num_proc → x ∈ intfKeys (e.taskAddrs i)) ∧
    (∀ j, j < e.num_proc → intfKeys (e.taskAddrs j) = ∅ →
        commonIntfs e.num_proc e.taskAddrs = ∅) ∧
    (commonIntfs e.num_proc e.taskAddrs = ∅ →
      runModel e = some (Event.threadStart :: notifyEvents e
          ++ cleanupEvents e
              (.noIntfs ((List.range e.num_proc).map (fun i => (i, e.taskAddrs i))))
          ++ [Event.joinThread, Event.shutdownDriver],
        .error (.noIntfs
          ((List.range e.num_proc).map (fun i => (i, e.taskAddrs i))))) ∧
      ∀ i, i < e.num_proc →
        ((List.range e.num_proc).map (fun i => (i, e.taskAddrs i)))[i]?
          = some (i, e.taskAddrs i)) ∧
    (¬ commonIntfs e.num_proc e.taskAddrs = ∅ →
      ∃ tr out, runModel e = some (tr, out) ∧
        ∀ l, out ≠ .error (.noIntfs l)) := by
  refine ⟨mem_commonIntfs e.num_proc e.taskAddrs hN,
    fun j hj hempty => commonIntfs_empty_of_empty e.num_proc e.taskAddrs hN j hj hempty,
    fun hci => ⟨?_, ?_⟩, fun hci => ?_⟩
  · exact runModel_of_error e (notifyEvents e) _ (tryBody_of_noIntfs e hreg hpt hci)
  · intro i hi
    rw [List.getElem?_map, List.getElem?_range hi]
    rfl
  · obtain ⟨hs, hhs⟩ := shiftedHashes_some e.num_proc e.hostOf hN
    have hlaunch := tryBody_of_launch e hs hreg hpt hci hhs
    by_cases hexit : e.exitCode ≠ 0
    · rw [if_pos hexit] at hlaunch
      refine ⟨_, _, runModel_of_error e _ _ hlaunch, ?_⟩
      intro l hcontra
      simp at hcontra
    · rw [if_neg hexit] at hlaunch
      have hrun := runModel_of_ok e _ _ hlaunch
      by_cases hsf : e.sparkFailed
      · rw [if_pos hsf] at hrun
        refine ⟨_, _, hrun, ?_⟩
        intro l hcontra
        simp at hcontra
      · rw [if_neg hsf] at hrun
        refine ⟨_, _, hrun, ?_⟩
        intro l hcontra
        simp at hcontra

/-- Witness for C2 at the four-slot demo environment (two interfaces shared
by every slot). -/
theorem common_interfaces_negotiation_witness :
    ("eth0" ∈ commonIntfs envDemo.num_proc envDemo.taskAddrs ↔
        ∀ i, i < envDemo.num_proc → "eth0" ∈ intfKeys (envDemo.taskAddrs i)) ∧
      (¬ commonIntfs envDemo.num_proc envDemo.taskAddrs = ∅ →
        ∃ tr out, runModel envDemo = some (tr, out) ∧
          ∀ l, out ≠ .error (.noIntfs l)) :=
  ⟨(common_interfaces_negotiation envDemo (by decide) (by decide) (by decide)).1 "eth0",
   (common_interfaces_negotiation envDemo (by decide) (by decide) (by decide)).2.2.2⟩

/-! ### Claim theorems: fault handling and cleanup -/

/-- The trace component of a run outcome (empty for a diverging run). -/
def traceOf {α : Type} (o : Option (List Event × Except Fault (List α))) : List Event :=
  match o with
  | some (tr, _) => tr
  | none => []

/-- The outcome component of a run outcome. -/
def outcomeOf {α : Type} (o : Option (List Event × Except Fault (List α))) :
    Option (Except Fault (List α)) :=
  o.map Prod.snd

/-- Recognizes a `driver.drain` event. -/
def isDrainEvent : Event → Bool
  | .drain _ => true
  | _ => false

/-- Recognizes the external-launcher invocation event. -/
def isExecEvent : Event → Bool
  | .execLauncher _ _ _ => true
  | _ => false

/-- C3 (amended): for every fault raised inside the guarded orchestration
scope — the `try` body, from the initial-registration wait through the
launcher exit-code check — `run` performs, in order: drain the driver
registry with the fault's description, then (while the Spark launch thread is
still alive) a best-effort `interrupt_waits` on every already-registered
worker with each individual delivery failure discarded (the attempts and the
outcome do not depend on `interruptFails`), then unconditionally join the
launch thread and shut down the driver registry, and finally re-raises the
original fault unmodified.  (The unamended claim — *every* fault raised after
the launch thread starts — fails on the code: the post-cleanup
`check_for_spark_job_failure` fault propagates without any drain/interrupt,
see the counterexample.) -/
theorem fault_triggers_drain_interrupt_cleanup {α : Type} (e : Env α)
    (tr : List Event) (f : Fault)
    (h : tryBody e = some (tr, .error f)) :
    runModel e = some (Event.threadStart :: tr
      ++ (Event.drain f.message ::
          (if e.sparkAlive then
             e.registered.map (fun i => Event.interrupt i (!e.interruptFails i))
           else []))
      ++ [Event.joinThread, Event.shutdownDriver], .error f) := by
  simpa [cleanupEvents] using runModel_of_error e tr f h

/-- A one-slot environment whose `try` body succeeds but whose Spark job
failure check raises after the cleanup scope has already run. -/
def envPost : Env Nat where
  num_proc := 1
  registered := [0]
  peerTimeout := false
  taskAddrs := fun _ => [("eth0", 1)]
  hostOf := fun _ => 0
  exitCode := 0
  sparkAlive := true
  sparkFailed := true
  interruptFails := fun _ => false
  results := fun _ => 0

/-- Counterexample to C3 as stated: in `envPost` a fault
(`check_for_spark_job_failure`) is raised after the launch thread started —
the run's outcome is an error and the launch thread did start — yet no drain
(and hence no interrupt broadcast) is performed. -/
theorem fault_cleanup_counterexample :
    outcomeOf (runModel envPost) = some (Except.error Fault.sparkJobFailed) ∧
      (traceOf (runModel envPost)).countP isDrainEvent = 0 ∧
      Event.threadStart ∈ traceOf (runModel envPost) :=
  ⟨rfl, by decide, by decide⟩

/-- A four-slot environment in which slot 2 never registers, so the initial
registration wait times out; slot 3's interrupt delivery fails (and is
discarded). -/
def envTimeout : Env Nat where
  num_proc := 4
  registered := [0, 1, 3]
  peerTimeout := false
  taskAddrs := fun _ => [("eth0", 1)]
  hostOf := fun _ => 0
  exitCode := 0
  sparkAlive := true
  sparkFailed := false
  interruptFails := fun i => i == 3
  results := fun _ => 0

/-- Witness for C3 at `envTimeout`: the registration-timeout fault drains,
interrupts the three registered workers (slot 3's failed delivery included
and discarded), joins, shuts down, and re-raises the timeout. -/
theorem fault_triggers_drain_interrupt_cleanup_witness :
    runModel envTimeout = some ([Event.threadStart,
      Event.drain Fault.timeout.message,
      Event.interrupt 0 true, Event.interrupt 1 true, Event.interrupt 3 false,
      Event.joinThread, Event.shutdownDriver], Except.error Fault.timeout) :=
  fault_triggers_drain_interrupt_cleanup envTimeout [] Fault.timeout rfl

/-- C5: if fewer than `N` workers register before the deadline, the initial
registration wait raises the timeout fault, the run never computes a rank
mapping and never invokes the external launcher, and each worker that did
register receives a best-effort interrupt signal (the launch thread being
still alive). -/
theorem registration_timeout_no_launch {α : Type} (e : Env α)
    (hmiss : allRegistered e = false) (halive : e.sparkAlive = true) :
    runModel e = some (Event.threadStart ::
        (Event.drain Fault.timeout.message ::
          e.registered.map (fun i => Event.interrupt i (!e.interruptFails i)))
        ++ [Event.joinThread, Event.shutdownDriver], .error .timeout) ∧
    (∀ l, Event.setRanks l ∉ traceOf (runModel e)) ∧
    (∀ np hosts intfs, Event.execLauncher np hosts intfs ∉ traceOf (runModel e)) ∧
    (∀ i ∈ e.registered, Event.interrupt i (!e.interruptFails i) ∈ traceOf (runModel e)) := by
  have hrun := runModel_of_error e [] .timeout (tryBody_of_unregistered e hmiss)
  rw [cleanupEvents, halive] at hrun
  simp only [if_true] at hrun
  refine ⟨by simpa using hrun, ?_, ?_, ?_⟩
  · intro l
    rw [hrun]
    simp [traceOf]
  · intro np hosts intfs
    rw [hrun]
    simp [traceOf]
  · intro i hi
    rw [hrun]
    simp only [traceOf, List.cons_append]
    exact List.mem_cons_of_mem _ (List.mem_cons_of_mem _
      (List.mem_append_left _ (List.mem_map_of_mem _ hi)))

/-- Witness for C5 at `envTimeout` (slot 2 of 4 missing): timeout raised, no
rank mapping, no launcher invocation, slots 0, 1 and 3 interrupted. -/
theorem registration_timeout_no_launch_witness :
    runModel envTimeout = some (Event.threadStart ::
        (Event.drain Fault.timeout.message ::
          envTimeout.registered.map
            (fun i => Event.interrupt i (!envTimeout.interruptFails i)))
        ++ [Event.joinThread, Event.shutdownDriver], .error .timeout) ∧
      Event.setRanks [0, 1, 2, 3] ∉ traceOf (runModel envTimeout) ∧
      Event.execLauncher 4 [(0, 4)] {"eth0"} ∉ traceOf (runModel envTimeout) ∧
      Event.interrupt 1 (!envTimeout.interruptFails 1) ∈ traceOf (runModel envTimeout) :=
  ⟨(registration_timeout_no_launch envTimeout rfl rfl).1,
   (registration_timeout_no_launch envTimeout rfl rfl).2.1 [0, 1, 2, 3],
   (registration_timeout_no_launch envTimeout rfl rfl).2.2.1 4 [(0, 4)] {"eth0"},
   (registration_timeout_no_launch envTimeout rfl rfl).2.2.2 1 (by decide)⟩

/-! ### Claim theorems: launcher invocation and result collection -/

/-- C6: once the orchestration reaches the launch step, `run` invokes the
external launcher exactly once (one `execLauncher` event in the whole trace,
whatever the exit code); a nonzero exit code raises a fault carrying that
exit code, whose message contains the code; a zero exit code raises no such
fault and the run proceeds to result collection. -/
theorem launcher_invoked_once_exit_code {α : Type} (e : Env α)
    (hN : 1 ≤ e.num_proc) (hreg : allRegistered e = true)
    (hpt : e.peerTimeout = false)
    (hci : ¬ commonIntfs e.num_proc e.taskAddrs = ∅) :
    ∃ tr out, runModel e = some (tr, out) ∧
      tr.countP isExecEvent = 1 ∧
      (e.exitCode ≠ 0 →
        out = .error (.mpirunExit e.exitCode) ∧
        ∃ p q, (Fault.mpirunExit e.exitCode).message
          = p ++ toString e.exitCode ++ q) ∧
      (e.exitCode = 0 →
        (∀ c, out ≠ .error (.mpirunExit c)) ∧
        (e.sparkFailed = false → Event.getResults ∈ tr ∧ ∃ res, out = .ok res)) := by
  obtain ⟨hs, hhs⟩ := shiftedHashes_some e.num_proc e.hostOf hN
  have hlaunch := tryBody_of_launch e hs hreg hpt hci hhs
  have hmain : (mainTrace e hs).countP isExecEvent = 1 := by
    rw [mainTrace, notifyEvents, List.countP_append, List.countP_map]
    simp [isExecEvent, List.countP_cons, Function.comp_def]
  by_cases hexit : e.exitCode ≠ 0
  · rw [if_pos hexit] at hlaunch
    have hrun := runModel_of_error e _ _ hlaunch
    refine ⟨_, _, hrun, ?_, fun _ => ⟨rfl, ?_⟩, fun h0 => absurd h0 hexit⟩
    · by_cases halive : e.sparkAlive <;>
        simp [List.countP_append, List.countP_cons, hmain, cleanupEvents, halive,
          isExecEvent, List.countP_map, Function.comp_def]
    · exact ⟨"mpirun exited with code ", ", see the error above.", rfl⟩
  · rw [if_neg hexit] at hlaunch
    push_neg at hexit
    have hrun := runModel_of_ok e _ _ hlaunch
    by_cases hsf : e.sparkFailed
    · rw [if_pos hsf] at hrun
      refine ⟨_, _, hrun, ?_, fun hc => absurd hexit hc, fun _ => ⟨?_, ?_⟩⟩
      · simp [List.countP_append, List.countP_cons, hmain, isExecEvent]
      · intro c hcontra
        simp at hcontra
      · intro hcontra
        rw [hsf] at hcontra
        exact absurd hcontra (by simp)
    · rw [if_neg hsf] at hrun
      refine ⟨_, _, hrun, ?_, fun hc => absurd hexit hc, fun _ => ⟨?_, ?_⟩⟩
      · simp [List.countP_append, List.countP_cons, hmain, isExecEvent]
      · intro c hcontra
        simp at hcontra
      · intro _
        exact ⟨by simp, _, rfl⟩

/-- The demo environment with the launcher failing with exit code 137. -/
def envExit : Env Nat := { envDemo with exitCode := 137 }

/-- Witness for C6 at `envExit` (exit code 137). -/
theorem launcher_invoked_once_exit_code_witness :
    ∃ tr out, runModel envExit = some (tr, out) ∧
      tr.countP isExecEvent = 1 ∧
      ((137 : Int) ≠ 0 →
        out = .error (.mpirunExit 137) ∧
        ∃ p q, (Fault.mpirunExit (137 : Int)).message = p ++ toString (137 : Int) ++ q) ∧
      ((137 : Int) = 0 →
        (∀ c, out ≠ .error (.mpirunExit c)) ∧
        (envExit.sparkFailed = false → Event.getResults ∈ tr ∧ ∃ res, out = .ok res)) :=
  launcher_invoked_once_exit_code envExit (by decide) (by decide) (by decide)
    (by decide)

/-- C7: on success, `run` returns the list of exactly `N` results reordered
from slot order into rank order: the element at each rank `r < N` is the
result produced by slot `ranks_to_indices[r]`. -/
theorem results_reordered_by_rank {α : Type} (e : Env α)
    (hN : 1 ≤ e.num_proc) (hreg : allRegistered e = true)
    (hpt : e.peerTimeout = false)
    (hci : ¬ commonIntfs e.num_proc e.taskAddrs = ∅)
    (hexit : e.exitCode = 0) (hsf : e.sparkFailed = false) :
    ∃ tr ranks, ranksOf e.num_proc e.hostOf = some ranks ∧
      runModel e = some (tr, .ok (ranks.map e.results)) ∧
      (ranks.map e.results).length = e.num_proc ∧
      ∀ r, r < e.num_proc → ∃ s, ranks.get? r = some s ∧
        (ranks.map e.results).get? r = some (e.results s) := by
  obtain ⟨hs, hhs⟩ := shiftedHashes_some e.num_proc e.hostOf hN
  have hlaunch := tryBody_of_launch e hs hreg hpt hci hhs
  rw [if_neg (by simp [hexit])] at hlaunch
  have hrun := runModel_of_ok e _ _ hlaunch
  rw [if_neg (by simp [hsf])] at hrun
  set ranks := hs.flatMap (taskHostHashIndices e.num_proc e.hostOf) with hranks
  have hro : ranksOf e.num_proc e.hostOf = some ranks := by
    simp [ranksOf, hhs]
  obtain ⟨ranks', hro', hperm', _⟩ := ranksOf_spec e.num_proc e.hostOf hN
  have hre : ranks' = ranks := by
    rw [hro] at hro'
    exact (Option.some_injective _ hro').symm
  subst hre
  have hlen : ranks.length = e.num_proc := by
    rw [hperm'.length_eq, List.length_range]
  refine ⟨_, ranks, hro, hrun, by simp [hlen], ?_⟩
  intro r hr
  have hr' : r < ranks.length := by omega
  refine ⟨ranks.get ⟨r, hr'⟩, List.get?_eq_get hr', ?_⟩
  rw [List.get?_eq_getElem?, List.getElem?_map, ← List.get?_eq_getElem?,
    List.get?_eq_get hr']
  rfl

/-- Witness for C7 at the four-slot demo environment: ranks `[0, 2, 1, 3]`,
results `[0, 20, 10, 30]`. -/
theorem results_reordered_by_rank_witness :
    ∃ tr ranks, ranksOf envDemo.num_proc envDemo.hostOf = some ranks ∧
      runModel envDemo = some (tr, .ok (ranks.map envDemo.results)) ∧
      (ranks.map envDemo.results).length = envDemo.num_proc ∧
      ∀ r, r < envDemo.num_proc → ∃ s, ranks.get? r = some s ∧
        (ranks.map envDemo.results).get? r = some (envDemo.results s) :=
  results_reordered_by_rank envDemo (by decide) (by decide) (by decide)
    (by decide) (by decide) (by decide)

/-! ### Claim theorems: per-worker behaviour -/

/-- Recognizes a peer-address report event. -/
def isReportEvent : TaskEvent → Bool
  | .reportPeerAddresses _ => true
  | _ => false

/-- The ring-successor map `i ↦ (i + 1) % N` permutes `[0, N)`. -/
theorem succ_mod_map_perm (N : Nat) (hN : 1 ≤ N) :
    ((List.range N).map (fun i => (i + 1) % N)).Perm (List.range N) := by
  obtain ⟨n, rfl⟩ : ∃ n, N = n + 1 := ⟨N - 1, by omega⟩
  have hmap : (List.range (n + 1)).map (fun i => (i + 1) % (n + 1))
      = (List.range n).map (fun i => i + 1) ++ [0] := by
    rw [List.range_succ, List.map_append]
    have h1 : (List.range n).map (fun i => (i + 1) % (n + 1))
        = (List.range n).map (fun i => i + 1) :=
      List.map_congr_left
        (fun a ha => Nat.mod_eq_of_lt (by have := List.mem_range.mp ha; omega))
    rw [h1]
    simp [Nat.mod_self]
  rw [hmap]
  have hr : List.range (n + 1) = 0 :: (List.range n).map (fun i => i + 1) := by
    rw [List.range_succ_eq_map]
  rw [hr]
  exact List.perm_append_comm

/-- C8: during the ring probe, every slot `i < N` resolves the endpoint set
of its ring successor `(i + 1) % N` and writes exactly one peer-address
record — the successor's; aggregated over all `N` slots, the successor map
permutes `[0, N)`, so exactly one peer-address record exists per slot,
written once. -/
theorem ring_probe_one_record_per_slot (N : Nat) (hostOf : Nat → Nat) (hN : 1 ≤ N) :
    (∀ i, i < N →
      (taskFn N i hostOf).countP isReportEvent = 1 ∧
      TaskEvent.reportPeerAddresses ((i + 1) % N) ∈ taskFn N i hostOf ∧
      TaskEvent.queryAllTaskAddresses ((i + 1) % N) ∈ taskFn N i hostOf) ∧
    ((List.range N).map (fun i => (i + 1) % N)).Perm (List.range N) ∧
    (∀ j, j < N → (List.range N).countP (fun i => (i + 1) % N == j) = 1) := by
  refine ⟨?_, succ_mod_map_perm N hN, ?_⟩
  · intro i _
    refine ⟨?_, ?_, ?_⟩
    · rw [taskFn]
      rcases hh : (taskHostHashIndices N hostOf (hostOf i)).head? with _ | first
      · simp [List.countP_append, List.countP_cons, isReportEvent]
      · by_cases hf : first = i <;>
          simp [hf, List.countP_append, List.countP_cons, isReportEvent]
    · rw [taskFn]
      simp
    · rw [taskFn]
      simp
  · intro j hj
    have hp := (succ_mod_map_perm N hN).countP_eq (· == j)
    rw [List.countP_map] at hp
    have hcr : (List.range N).countP (· == j) = 1 := by
      rw [← List.count_eq_countP]
      exact List.count_eq_one_of_mem (List.nodup_range N) (List.mem_range.mpr hj)
    rw [← hp] at hcr
    simpa [Function.comp_def] using hcr

/-- Witness for C8 at `N = 4`, two hosts. -/
theorem ring_probe_one_record_per_slot_witness :
    ((taskFn 4 3 (fun i => i % 2)).countP isReportEvent = 1 ∧
      TaskEvent.reportPeerAddresses ((3 + 1) % 4) ∈ taskFn 4 3 (fun i => i % 2) ∧
      TaskEvent.queryAllTaskAddresses ((3 + 1) % 4) ∈ taskFn 4 3 (fun i => i % 2)) ∧
    ((List.range 4).map (fun i => (i + 1) % 4)).Perm (List.range 4) ∧
    (List.range 4).countP (fun i => (i + 1) % 4 == 0) = 1 :=
  ⟨(ring_probe_one_record_per_slot 4 (fun i => i % 2) (by decide)).1 3 (by decide),
   (ring_probe_one_record_per_slot 4 (fun i => i % 2) (by decide)).2.1,
   (ring_probe_one_record_per_slot 4 (fun i => i % 2) (by decide)).2.2 0 (by decide)⟩

/-- A slot in a host group has that group's host hash. -/
theorem hostOf_eq_of_mem_group (N : Nat) (hostOf : Nat → Nat) (h i : Nat)
    (hi : i ∈ taskHostHashIndices N hostOf h) : hostOf i = h := by
  have := (List.mem_filter.mp hi).2
  simpa using this

/-- C9: in every host group, exactly one slot — the one equal to the first
element of the host's slot-index list — takes the path that awaits command
start and then command termination on its own agent; every other slot of the
group instead waits on that first slot's command termination. -/
theorem one_driver_per_host (N : Nat) (hostOf : Nat → Nat) (h first : Nat)
    (hfirst : (taskHostHashIndices N hostOf h).head? = some first) :
    first ∈ taskHostHashIndices N hostOf h ∧
    (taskHostHashIndices N hostOf h).countP (fun i => i == first) = 1 ∧
    (∀ i ∈ taskHostHashIndices N hostOf h,
      (TaskEvent.waitCommandStart ∈ taskFn N i hostOf ↔ i = first)) ∧
    (TaskEvent.waitCommandTermination first ∈ taskFn N first hostOf) ∧
    (∀ i ∈ taskHostHashIndices N hostOf h, i ≠ first →
      TaskEvent.waitCommandTermination first ∈ taskFn N i hostOf ∧
      TaskEvent.waitCommandStart ∉ taskFn N i hostOf) := by
  have hmem : first ∈ taskHostHashIndices N hostOf h :=
    List.mem_of_mem_head? hfirst
  have hnodup : (taskHostHashIndices N hostOf h).Nodup :=
    (List.nodup_range N).filter _
  have hgroup : ∀ i ∈ taskHostHashIndices N hostOf h,
      taskHostHashIndices N hostOf (hostOf i) = taskHostHashIndices N hostOf h := by
    intro i hi
    rw [hostOf_eq_of_mem_group N hostOf h i hi]
  refine ⟨hmem, ?_, ?_, ?_, ?_⟩
  · rw [← List.count_eq_countP]
    exact List.count_eq_one_of_mem hnodup hmem
  · intro i hi
    rw [taskFn]
    simp only [hgroup i hi, hfirst]
    by_cases hf : i = first
    · simp [hf]
    · rw [if_neg (fun hc : first = i => hf hc.symm)]
      simp [hf]
  · rw [taskFn]
    simp only [hgroup first hmem, hfirst]
    simp
  · intro i hi hne
    rw [taskFn]
    simp only [hgroup i hi, hfirst]
    have hne' : ¬ first = i := fun hc => hne hc.symm
    constructor
    · simp [hne']
    · simp [hne']

/-- Witness for C9 at `N = 4`, host group `{1, 3}` of host hash 1: slot 1
drives, slot 3 waits on slot 1. -/
theorem one_driver_per_host_witness :
    1 ∈ taskHostHashIndices 4 (fun i => i % 2) 1 ∧
      (TaskEvent.waitCommandStart ∈ taskFn 4 1 (fun i => i % 2) ↔ 1 = 1) ∧
      (TaskEvent.waitCommandStart ∈ taskFn 4 3 (fun i => i % 2) ↔ 3 = 1) ∧
      TaskEvent.waitCommandTermination 1 ∈ taskFn 4 1 (fun i => i % 2) ∧
      TaskEvent.waitCommandTermination 1 ∈ taskFn 4 3 (fun i => i % 2) :=
  ⟨(one_driver_per_host 4 (fun i => i % 2) 1 1 (by decide)).1,
   (one_driver_per_host 4 (fun i => i % 2) 1 1 (by decide)).2.2.1 1 (by decide),
   (one_driver_per_host 4 (fun i => i % 2) 1 1 (by decide)).2.2.1 3 (by decide),
   (one_driver_per_host 4 (fun i => i % 2) 1 1 (by decide)).2.2.2.1,
   ((one_driver_per_host 4 (fun i => i % 2) 1 1 (by decide)).2.2.2.2 3 (by decide)
      (by decide)).1⟩

end Horovod
